import Mathlib

/-!
Verification development for the helm-whatup reconciliation engine
(`src/main.go`).  The Go code is shallowly embedded: Go slices become
`List`, Go maps become association lists with overwrite-on-insert,
Go strings become `String`, and the mutable local variables of `run`
(`repoName`, `chartFound`, `latestVersion`) become explicit parameters
of structurally recursive functions.
-/

namespace HelmWhatup

/-- Substring test on character lists: `sub` occurs inside `l`
(Go `strings.Contains`). -/
def listInfixB (sub : List Char) : List Char → Bool
  | [] => sub.isEmpty
  | c :: rest => sub.isPrefixOf (c :: rest) || listInfixB sub rest

/-- Go `strings.Contains s sub`. -/
def strContains (s sub : String) : Bool :=
  listInfixB sub.data s.data

/-- Go `strings.HasPrefix s pre`. -/
def strStarts (s pre : String) : Bool :=
  pre.data.isPrefixOf s.data

/-- Go `strings.HasSuffix s post`. -/
def strEnds (s post : String) : Bool :=
  post.data.isSuffixOf s.data

/-- Go `strings.TrimSuffix s post`: drop `post` when it is a suffix. -/
def trimEnd (s post : String) : String :=
  if strEnds s post then String.mk (s.data.take (s.data.length - post.data.length)) else s

/-- Go `path/filepath.Base` on a unix path: strip trailing slashes and
return the last path element ("." for the empty path, "/" when the path
is all slashes). -/
def filepathBase (path : String) : String :=
  if path = "" then "." else
  let t := (path.data.reverse.dropWhile (fun c => c = '/')).reverse
  if t = [] then "/" else
  String.mk ((t.reverse.takeWhile (fun c => c != '/')).reverse)

/-- Association-list map lookup (Go `m[k]` with the `ok` flag as
`Option`). -/
def mapLookup (m : List (String × String)) (k : String) : Option String :=
  match m with
  | [] => none
  | (k₁, v) :: rest => if k₁ = k then some v else mapLookup rest k

/-- Association-list map insert with overwrite (Go `m[k] = v`). -/
def mapInsert (m : List (String × String)) (k v : String) : List (String × String) :=
  match m with
  | [] => [(k, v)]
  | (k₁, v₁) :: rest => if k₁ = k then (k, v) :: rest else (k₁, v₁) :: mapInsert rest k v

/-- One published chart version inside an index
(`helm.sh/helm/v3/pkg/repo.ChartVersion` as used by `main.go`:
the code reads `entry.Version`, `entry.APIVersion` and `entry.URLs`). -/
structure ChartEntry where
  version : String
  apiVersion : String
  urls : List String
deriving DecidableEq, Repr

/-- One loaded repository index (`repo.IndexFile` as used by `main.go`:
the code reads `idx.Entries` and `idx.APIVersion`).  The `Entries` map is
an association list from chart name to its pre-ordered entry list. -/
structure IndexFile where
  apiVersion : String
  entries : List (String × List ChartEntry)
deriving DecidableEq, Repr

/-- A configured repository from the repository file
(`repo.Entry`: the code reads `repo.Name` and `repo.URL`). -/
structure RepoEntry where
  name : String
  url : String
deriving DecidableEq, Repr

/-- Chart metadata of a release (`chart.Metadata`: the code reads
`Name`, `Version` and `Annotations`; `Annotations` may be nil). -/
structure ChartMetadata where
  name : String
  version : String
  annotations : Option (List (String × String))
deriving DecidableEq, Repr

/-- The chart of a release. -/
structure Chart where
  metadata : ChartMetadata
deriving DecidableEq, Repr

/-- An installed release (`release.Release`: the code reads `Name`,
`Namespace` and `Chart`). -/
structure Release where
  name : String
  nspace : String
  chart : Chart
deriving DecidableEq, Repr

/-- Structure `ChartVersionInfo` from `main.go`: one reconciliation result record. -/
structure ChartVersionInfo where
  releaseName : String
  nspace : String
  chartName : String
  installedVersion : String
  latestVersion : String
  repoName : String
  status : String
deriving DecidableEq, Repr

/-- Status constant `statusOutdated` from `main.go`. -/
def statusOutdated : String := "OUTDATED"

/-- Status constant `statusUptodate` from `main.go`. -/
def statusUptodate : String := "UPTODATE"

/-- The warning appended in `run` for a release whose chart was not
found: the fixed text followed by the release name wrapped in
single-quote characters. -/
def warnFor (n : String) : String :=
  "The source repository could not be determined for " ++
    String.mk [Char.ofNat 39] ++ n ++ String.mk [Char.ofNat 39]

/-- The chart-name → repository-name map built at the top of `run`
(lines 129–143): for each configured repository (outer loop), for each
loaded index and each chart name in it, set `m[chartName] = repo.Name`
when the key is absent or `strings.Contains(repo.Name, chartName)`. -/
def insertChart (repoName : String) (m : List (String × String)) (c : String) :
    List (String × String) :=
  if (mapLookup m c).isNone || strContains repoName c then mapInsert m c repoName else m

/-- Inner loop of the map build: all chart names of one index. -/
def passIdx (repoName : String) (m : List (String × String)) (idx : IndexFile) :
    List (String × String) :=
  idx.entries.foldl (fun m p => insertChart repoName m p.1) m

/-- Middle loop of the map build: all loaded indices, for one
configured repository. -/
def passRepo (indices : List IndexFile) (m : List (String × String)) (r : RepoEntry) :
    List (String × String) :=
  indices.foldl (passIdx r.name) m

/-- Map `chartRepoMap` built by `run` lines 129–143. -/
def buildChartRepoMap (cfg : List RepoEntry) (indices : List IndexFile) :
    List (String × String) :=
  cfg.foldl (passRepo indices) []

/-- The annotation step of `run` (lines 171–175): value of the
`artifacthub.io/repository` annotation when the annotations map is
non-nil and has the key, `""` otherwise. -/
def annotRepoName (rel : Release) : String :=
  match rel.chart.metadata.annotations with
  | none => ""
  | some anns =>
    match mapLookup anns "artifacthub.io/repository" with
    | some v => v
    | none => ""

/-- Value of `repoName` after the annotation and chart-map steps of `run`
(lines 167–182). -/
def initialRepoName (chartRepoMap : List (String × String)) (rel : Release) : String :=
  let r := annotRepoName rel
  if r = "" then
    match mapLookup chartRepoMap rel.chart.metadata.name with
    | some v => v
    | none => ""
  else r

/-- Negation of the skip condition in the entry loop (line 200):
an entry is taken when `devel` is set or its `APIVersion` is not
`"prerelease"`. -/
def acceptedEntry (devel : Bool) (e : ChartEntry) : Bool :=
  devel || !(e.apiVersion == "prerelease")

/-- The repository-URL containment scan (lines 211–216 and 251–256):
first configured repository whose URL is contained in `chartURL`,
`""` when none matches. -/
def urlMatchRepo (cfg : List RepoEntry) (chartURL : String) : String :=
  match cfg.find? (fun r => strContains chartURL r.url) with
  | some r => r.name
  | none => ""

/-- The entry loop of `run` (lines 197–220): walk the pre-ordered entry
list, skip prereleases unless `devel`, and on the first accepted entry
record its version (and, when `repoName` is still empty and the entry
has URLs, try the URL containment scan), then break.  Returns the pair
`(latestVersion, repoName)`. -/
def findLatest (cfg : List RepoEntry) (devel : Bool) :
    String → List ChartEntry → String × String
  | repoName, [] => ("", repoName)
  | repoName, e :: rest =>
    if acceptedEntry devel e then
      let rn :=
        if repoName = "" then
          match e.urls with
          | [] => repoName
          | u :: _ => urlMatchRepo cfg u
        else repoName
      (e.version, rn)
    else findLatest cfg devel repoName rest

/-- Fuel-driven scanner behind `strSplit` (structural recursion so
that concrete splits compute): walk the characters, cutting at each
occurrence of the separator. -/
def goSplit (sep : List Char) : Nat → List Char → List Char → List (List Char)
  | _, [], acc => [acc.reverse]
  | 0, rest, acc => [acc.reverse ++ rest]
  | Nat.succ fuel, ch :: rest, acc =>
    if sep.isPrefixOf (ch :: rest) then
      acc.reverse :: goSplit sep fuel (List.drop sep.length (ch :: rest)) []
    else goSplit sep fuel rest (ch :: acc)

/-- Go `strings.Split s sep` for a non-empty separator: split around
every occurrence of `sep`, keeping empty fragments. -/
def strSplit (s sep : String) : List String :=
  (goSplit sep.data s.data.length s.data []).map String.mk

/-- The attribution fallback chain of `run` (lines 226–288), entered
with the `repoName` accumulated so far: name equality (Method 1), the
index-identifier convention (Method 2), URL containment and
host-label extraction (Method 3), the chart-name prefix heuristic
(last resort), and the `"unknown"` placeholder. -/
def attributeRepo (cfg : List RepoEntry) (idx : IndexFile) (chartName : String)
    (entries : List ChartEntry) (repoName : String) : String :=
  if repoName != "" then repoName else
  let r1 :=
    match cfg.find? (fun r => r.name == chartName) with
    | some r => r.name
    | none => ""
  if r1 != "" then r1 else
  let r2 :=
    if idx.apiVersion != "" then
      let nameFromPath := filepathBase idx.apiVersion
      if strEnds nameFromPath "-index.yaml" then trimEnd nameFromPath "-index.yaml" else ""
    else ""
  if r2 != "" then r2 else
  let r3 :=
    match entries with
    | [] => ""
    | e₀ :: _ =>
      match e₀.urls with
      | [] => ""
      | u :: _ =>
        let m := urlMatchRepo cfg u
        if m != "" then m else
        let parts := strSplit u "/"
        if parts.length ≥ 3 then
          let domainParts := strSplit (parts.getD 2 "") "."
          if domainParts.length ≥ 2 then domainParts.getD 1 "" else ""
        else ""
  if r3 != "" then r3 else
  let r4 :=
    match cfg.find? (fun r => strStarts r.name ((strSplit chartName "-").getD 0 "")) with
    | some r => r.name
    | none => ""
  if r4 != "" then r4 else "unknown"

/-- Record construction and status classification of `run`
(lines 290–305): `UPTODATE` exactly when the installed version string
equals the latest version string. -/
def mkRecord (relName nspace chartName chartVersion latest rn : String) :
    ChartVersionInfo :=
  { releaseName := relName
    nspace := nspace
    chartName := chartName
    installedVersion := chartVersion
    latestVersion := latest
    repoName := rn
    status := if chartVersion = latest then statusUptodate else statusOutdated }

/-- Lookup of a chart name in the `Entries` map of an index
(`entries, exists := idx.Entries[chartName]`). -/
def entriesFor (idx : IndexFile) (chartName : String) : Option (List ChartEntry) :=
  (idx.entries.find? (fun p => p.1 == chartName)).map Prod.snd

/-- The repository loop of `run` for one release (lines 184–311):
skip indices without a non-empty entry list for the chart; otherwise
set `chartFound`, run the entry loop, continue when no acceptable
version was found, and otherwise attribute the repository, emit the
record and break.  Returns the produced record (if any) and the final
`chartFound` flag. -/
def resolveLoop (cfg : List RepoEntry) (devel : Bool)
    (relName nspace chartName chartVersion : String) :
    List IndexFile → String → Bool → Option ChartVersionInfo × Bool
  | [], _, chartFound => (none, chartFound)
  | idx :: rest, repoName, chartFound =>
    match entriesFor idx chartName with
    | none => resolveLoop cfg devel relName nspace chartName chartVersion rest repoName chartFound
    | some entries =>
      if entries.isEmpty then
        resolveLoop cfg devel relName nspace chartName chartVersion rest repoName chartFound
      else
        let p := findLatest cfg devel repoName entries
        if p.1 = "" then
          resolveLoop cfg devel relName nspace chartName chartVersion rest p.2 true
        else
          (some (mkRecord relName nspace chartName chartVersion p.1
            (attributeRepo cfg idx chartName entries p.2)), true)

/-- Processing of one release inside the main loop of `run`
(lines 164–311). -/
def processRelease (cfg : List RepoEntry) (indices : List IndexFile)
    (chartRepoMap : List (String × String)) (devel : Bool) (rel : Release) :
    Option ChartVersionInfo × Bool :=
  resolveLoop cfg devel rel.name rel.nspace rel.chart.metadata.name
    rel.chart.metadata.version indices (initialRepoName chartRepoMap rel) false

/-- The main loop of `run` (lines 164–317): per release, at most one
record, and a warning exactly when `chartFound` stayed false.  Returns
`(result, warnings)` in release order. -/
def reconcile (cfg : List RepoEntry) (indices : List IndexFile)
    (chartRepoMap : List (String × String)) (devel : Bool) :
    List Release → List ChartVersionInfo × List String
  | [] => ([], [])
  | rel :: rest =>
    let pr := processRelease cfg indices chartRepoMap devel rel
    let acc := reconcile cfg indices chartRepoMap devel rest
    (pr.1.toList ++ acc.1, (if pr.2 then [] else [warnFor rel.name]) ++ acc.2)

/-- The per-repository index-loading loop of `fetchIndices`
(lines 444–457): compose the cache file name, try to load it, and on
failure skip the repository (`continue`). -/
def fetchIndicesLoop (loadIdx : String → Option IndexFile) :
    List RepoEntry → List IndexFile
  | [] => []
  | r :: rest =>
    match loadIdx (r.name ++ "-index.yaml") with
    | none => fetchIndicesLoop loadIdx rest
    | some idx => idx :: fetchIndicesLoop loadIdx rest

/-- Function `fetchIndices` (lines 431–460): fail when the repository file
cannot be loaded, otherwise collect the loadable cached indices. -/
def fetchIndices (cfg : Except String (List RepoEntry))
    (loadIdx : String → Option IndexFile) : Except String (List IndexFile) :=
  match cfg with
  | .error e => .error ("failed to load repository file: " ++ e)
  | .ok repos => .ok (fetchIndicesLoop loadIdx repos)

/-- Observable outcome of `run`: a fatal error, one of the two early
returns (no releases / no loaded repositories), or the reconciliation
report handed to the presentation layer. -/
inductive RunOutcome where
  | earlyNoReleases : RunOutcome
  | earlyNoRepos : RunOutcome
  | report : List ChartVersionInfo → List String → RunOutcome
deriving DecidableEq, Repr

/-- Function `run` (lines 105–328), with the external collaborators as inputs:
the release-list fetch result, the repository-file load result and the
per-file index loader.  Errors from `fetchReleases` and `fetchIndices`
abort the run; an empty release list and an empty loaded-index list
each return early; otherwise the reconciliation loop runs. -/
def run (releasesResult : Except String (List Release))
    (cfg : Except String (List RepoEntry)) (loadIdx : String → Option IndexFile)
    (devel : Bool) : Except String RunOutcome :=
  match releasesResult with
  | .error e => .error e
  | .ok releases =>
    match fetchIndices cfg loadIdx with
    | .error e => .error e
    | .ok indices =>
      let cfgRepos := match cfg with | .ok rs => rs | .error _ => []
      let m := buildChartRepoMap cfgRepos indices
      if releases.length = 0 then .ok .earlyNoReleases
      else if indices.length = 0 then .ok .earlyNoRepos
      else
        let pr := reconcile cfgRepos indices m devel releases
        .ok (.report pr.1 pr.2)

/-- Warnings visible in the outcome (the early returns print none). -/
def outWarnings : RunOutcome → List String
  | .report _ ws => ws
  | _ => []

/-- Result records visible in the outcome. -/
def outRecords : RunOutcome → List ChartVersionInfo
  | .report rs _ => rs
  | _ => []

/-- Derived per-key update applied to the stored value for a chart
name by the pass of one configured repository over the map-build
loops. -/
def updOne (rn c : String) (o : Option String) : Option String :=
  if o.isNone || strContains rn c then some rn else o

/-- Whether `c` occurs as a chart name in at least one loaded index. -/
def appearsB (indices : List IndexFile) (c : String) : Bool :=
  indices.any (fun idx => idx.entries.any (fun p => p.1 == c))

/-- Closed-form owner assigned by the map build to a chart name:
the last configured repository whose name textually contains the chart
name, and otherwise the first configured repository — independent of
which index actually lists the chart. -/
def amendedOwner (cfg : List RepoEntry) (c : String) : Option String :=
  match cfg.reverse.find? (fun r => strContains r.name c) with
  | some r => some r.name
  | none => cfg.head?.map RepoEntry.name

/-- Version of the first accepted entry of a pre-ordered entry list
(what the entry loop returns as `latestVersion`). -/
def latestOfEntries (devel : Bool) (entries : List ChartEntry) : String :=
  ((entries.find? (acceptedEntry devel)).map ChartEntry.version).getD ""

/-- The index yields a record for `chartName`: a non-empty entry list
whose first accepted entry has a non-empty version string. -/
def yieldsB (devel : Bool) (chartName : String) (idx : IndexFile) : Bool :=
  match entriesFor idx chartName with
  | none => false
  | some es => !es.isEmpty && !(latestOfEntries devel es == "")

/-- The index has a non-empty entry list for `chartName` (the
condition that sets `chartFound`). -/
def hasEntriesB (chartName : String) (idx : IndexFile) : Bool :=
  match entriesFor idx chartName with
  | none => false
  | some es => !es.isEmpty

/-- Every entry the index has for `chartName` is flagged prerelease. -/
def allPreB (chartName : String) (idx : IndexFile) : Bool :=
  match entriesFor idx chartName with
  | none => true
  | some es => es.all (fun e => e.apiVersion == "prerelease")

theorem mapLookup_insert (m : List (String × String)) (k v k₂ : String) :
    mapLookup (mapInsert m k v) k₂ = if k = k₂ then some v else mapLookup m k₂ := by
  induction m with
  | nil => simp [mapInsert, mapLookup]
  | cons p rest ih =>
    obtain ⟨k₁, v₁⟩ := p
    by_cases h : k₁ = k
    · subst h
      by_cases h₂ : k₁ = k₂ <;> simp [mapInsert, mapLookup, h₂]
    · by_cases h₂ : k₁ = k₂
      · subst h₂
        have hk : ¬k = k₁ := fun hk => h hk.symm
        simp [mapInsert, mapLookup, h, hk]
      · simp [mapInsert, mapLookup, h, h₂, ih]

theorem mapLookup_insertChart (rn : String) (m : List (String × String)) (c c₂ : String) :
    mapLookup (insertChart rn m c) c₂ =
      if c = c₂ then updOne rn c (mapLookup m c) else mapLookup m c₂ := by
  unfold insertChart updOne
  by_cases h : ((mapLookup m c).isNone || strContains rn c) = true
  · simp only [h, if_true, mapLookup_insert]
  · simp only [h, if_false]
    by_cases h₂ : c = c₂ <;> simp [h₂]

theorem updOne_idem (rn c : String) (o : Option String) :
    updOne rn c (updOne rn c o) = updOne rn c o := by
  unfold updOne
  by_cases h : (o.isNone || strContains rn c) = true <;> simp [h]

theorem foldl_insertChart_lookup (rn : String) :
    ∀ (l : List (String × List ChartEntry)) (m : List (String × String)) (c : String),
      mapLookup (l.foldl (fun m p => insertChart rn m p.1) m) c =
        if l.any (fun p => p.1 == c) then updOne rn c (mapLookup m c) else mapLookup m c := by
  intro l
  induction l with
  | nil => intro m c; simp
  | cons p rest ih =>
    intro m c
    simp only [List.foldl_cons, List.any_cons]
    rw [ih]
    by_cases h : p.1 = c
    · subst h
      simp only [beq_self_eq_true, Bool.true_or, if_true, mapLookup_insertChart, if_pos rfl]
      by_cases h₂ : rest.any (fun q => q.1 == p.1) = true <;> simp [h₂, updOne_idem]
    · have hbe : (p.1 == c) = false := by simp [h]
      simp only [hbe, Bool.false_or, mapLookup_insertChart, if_neg h]

theorem passIdx_lookup (rn : String) (m : List (String × String)) (idx : IndexFile)
    (c : String) :
    mapLookup (passIdx rn m idx) c =
      if idx.entries.any (fun p => p.1 == c) then updOne rn c (mapLookup m c)
      else mapLookup m c := by
  unfold passIdx
  exact foldl_insertChart_lookup rn idx.entries m c

theorem foldl_passIdx_lookup (rn : String) :
    ∀ (indices : List IndexFile) (m : List (String × String)) (c : String),
      mapLookup (indices.foldl (passIdx rn) m) c =
        if appearsB indices c then updOne rn c (mapLookup m c) else mapLookup m c := by
  intro indices
  induction indices with
  | nil => intro m c; simp [appearsB]
  | cons idx rest ih =>
    intro m c
    simp only [List.foldl_cons, appearsB, List.any_cons]
    rw [ih]
    simp only [appearsB]
    rw [passIdx_lookup]
    by_cases hx : (idx.entries.any fun p => p.1 == c) = true
    · simp only [hx, if_true, Bool.true_or]
      by_cases h₂ : rest.any (fun i => i.entries.any (fun p => p.1 == c)) = true <;>
        simp [h₂, updOne_idem]
    · rw [Bool.not_eq_true] at hx
      simp only [hx, Bool.false_or]
      simp

theorem buildMap_lookup_general (indices : List IndexFile) (c : String) :
    ∀ (cfg : List RepoEntry) (m : List (String × String)),
      mapLookup (cfg.foldl (passRepo indices) m) c =
        if appearsB indices c then
          cfg.foldl (fun o r => updOne r.name c o) (mapLookup m c)
        else mapLookup m c := by
  intro cfg
  induction cfg with
  | nil => intro m; by_cases h : appearsB indices c <;> simp [h]
  | cons r rest ih =>
    intro m
    simp only [List.foldl_cons]
    rw [ih]
    unfold passRepo
    rw [foldl_passIdx_lookup]
    by_cases h : appearsB indices c <;> simp [h]

theorem foldUpd_some (c : String) :
    ∀ (cfg : List RepoEntry) (v : String),
      cfg.foldl (fun o r => updOne r.name c o) (some v) =
        match cfg.reverse.find? (fun r₁ => strContains r₁.name c) with
        | some r₁ => some r₁.name
        | none => some v := by
  intro cfg
  induction cfg with
  | nil => intro v; simp
  | cons r rest ih =>
    intro v
    simp only [List.foldl_cons, List.reverse_cons, List.find?_append]
    by_cases h : strContains r.name c = true
    · rw [show updOne r.name c (some v) = some r.name by simp [updOne, h]]
      rw [ih]
      cases hf : rest.reverse.find? (fun r₁ => strContains r₁.name c) <;>
        simp [hf, List.find?, h, Option.or_some, Option.none_or]
    · rw [show updOne r.name c (some v) = some v by simp [updOne, h]]
      rw [ih]
      cases hf : rest.reverse.find? (fun r₁ => strContains r₁.name c) <;>
        simp [hf, List.find?, h, Option.or_some, Option.none_or]

theorem foldUpd_none (c : String) (cfg : List RepoEntry) :
    cfg.foldl (fun o r => updOne r.name c o) none = amendedOwner cfg c := by
  cases cfg with
  | nil => simp [amendedOwner]
  | cons r rest =>
    simp only [List.foldl_cons]
    rw [show updOne r.name c none = some r.name by simp [updOne]]
    rw [foldUpd_some]
    unfold amendedOwner
    simp only [List.reverse_cons, List.find?_append]
    cases hf : rest.reverse.find? (fun r₁ => strContains r₁.name c) <;>
      simp only [hf, Option.or_some, Option.none_or]
    · by_cases h : strContains r.name c = true <;> simp [List.find?, h]

/-- C3 (amended): the chart→repository map built at the top of `run`
maps every chart name occurring in any loaded index, but the stored
repository is determined by the configured repository list alone, not
by which index lists the chart: the first configured repository wins
unless the name of a later configured repository textually contains the
chart name (last such containment wins); chart names in no loaded
index are absent. -/
theorem c3_chart_map_ownership (cfg : List RepoEntry) (indices : List IndexFile)
    (c : String) :
    mapLookup (buildChartRepoMap cfg indices) c =
      if appearsB indices c then amendedOwner cfg c else none := by
  unfold buildChartRepoMap
  rw [buildMap_lookup_general]
  by_cases h : appearsB indices c <;> simp [h, mapLookup, foldUpd_none]

/-- C3 counterexample: only the cached index of `beta` loads (from
`beta-index.yaml`) and it lists chart `mychart`, yet the map attributes
`mychart` to `alpha`, the first configured repository, which does not
own any loaded index. -/
theorem c3_counterexample :
    fetchIndicesLoop
        (fun f => if f = "beta-index.yaml"
          then some (⟨"", [("mychart", [⟨"1.0.0", "v1", []⟩])]⟩ : IndexFile) else none)
        [⟨"alpha", "https://a.example"⟩, ⟨"beta", "https://b.example"⟩] =
      [⟨"", [("mychart", [⟨"1.0.0", "v1", []⟩])]⟩] ∧
    mapLookup
        (buildChartRepoMap [⟨"alpha", "https://a.example"⟩, ⟨"beta", "https://b.example"⟩]
          [⟨"", [("mychart", [⟨"1.0.0", "v1", []⟩])]⟩]) "mychart" = some "alpha" ∧
    "alpha" ≠ "beta" :=
  ⟨rfl, rfl, by decide⟩

theorem findLatest_fst (cfg : List RepoEntry) (devel : Bool) :
    ∀ (rn : String) (entries : List ChartEntry),
      (findLatest cfg devel rn entries).1 = latestOfEntries devel entries := by
  intro rn entries
  induction entries generalizing rn with
  | nil => simp [findLatest, latestOfEntries]
  | cons e rest ih =>
    by_cases h : acceptedEntry devel e = true
    · simp [findLatest, h, latestOfEntries]
    · rw [Bool.not_eq_true] at h
      simp [findLatest, h, latestOfEntries, ih rn]

theorem findLatest_snd_of_ne (cfg : List RepoEntry) (devel : Bool) :
    ∀ (rn : String) (entries : List ChartEntry), rn ≠ "" →
      (findLatest cfg devel rn entries).2 = rn := by
  intro rn entries
  induction entries generalizing rn with
  | nil => intro _; simp [findLatest]
  | cons e rest ih =>
    intro hrn
    by_cases h : acceptedEntry devel e = true
    · simp [findLatest, h, hrn]
    · rw [Bool.not_eq_true] at h
      simp [findLatest, h]
      exact ih rn hrn

/-- C2: with the prerelease flag off, the entry loop never selects a
prerelease-flagged entry — the selected latest version is the version
of the first entry in the pre-ordered list that is not flagged
prerelease (and `""` when every entry is flagged). -/
theorem c2_no_prerelease_selected (cfg : List RepoEntry) (rn : String)
    (entries : List ChartEntry) :
    (findLatest cfg false rn entries).1 =
      (((entries.find? (fun e => !(e.apiVersion == "prerelease"))).map
        ChartEntry.version).getD "") ∧
    ∀ e, entries.find? (fun e₁ => !(e₁.apiVersion == "prerelease")) = some e →
      e.apiVersion ≠ "prerelease" := by
  constructor
  · rw [findLatest_fst]
    unfold latestOfEntries
    have hfun : acceptedEntry false = fun e => !(e.apiVersion == "prerelease") := by
      funext e
      simp [acceptedEntry]
    rw [hfun]
  · intro e he
    have h := List.find?_some he
    simpa using h

/-- Witness for C2 at a concrete entry list: the prerelease head is
skipped and the first stable entry is selected. -/
theorem c2_witness :
    (findLatest [] false "" [⟨"6.3.0-beta", "prerelease", []⟩, ⟨"6.2.0", "v1", []⟩]).1 =
      "6.2.0" ∧
    (⟨"6.2.0", "v1", []⟩ : ChartEntry).apiVersion ≠ "prerelease" := by
  have h := c2_no_prerelease_selected []
    "" [⟨"6.3.0-beta", "prerelease", []⟩, ⟨"6.2.0", "v1", []⟩]
  refine ⟨?_, h.2 ⟨"6.2.0", "v1", []⟩ rfl⟩
  rw [h.1]
  rfl

theorem resolveLoop_shape (cfg : List RepoEntry) (devel : Bool) (a ns c v : String) :
    ∀ (indices : List IndexFile) (rn : String) (f : Bool) (r : ChartVersionInfo) (b : Bool),
      resolveLoop cfg devel a ns c v indices rn f = (some r, b) →
      ∃ latest rn₂, r = mkRecord a ns c v latest rn₂ := by
  intro indices
  induction indices with
  | nil =>
    intro rn f r b h
    simp [resolveLoop] at h
  | cons idx rest ih =>
    intro rn f r b h
    cases he : entriesFor idx c with
    | none =>
      simp only [resolveLoop, he] at h
      exact ih _ _ _ _ h
    | some es =>
      simp only [resolveLoop, he] at h
      by_cases hemp : es.isEmpty = true
      · simp only [hemp, if_true] at h
        exact ih _ _ _ _ h
      · rw [Bool.not_eq_true] at hemp
        simp only [hemp] at h
        by_cases hl : (findLatest cfg devel rn es).1 = ""
        · simp only [hl, if_pos rfl] at h
          exact ih _ _ _ _ h
        · simp only [if_neg hl] at h
          injection h with h₁ h₂
          injection h₁ with h₁
          exact ⟨_, _, h₁.symm⟩

/-- C1: every produced result record is classified `UPTODATE` exactly
when its installed version string equals its latest version string
(plain string equality), and `OUTDATED` exactly otherwise. -/
theorem c1_status_exact_equality (cfg : List RepoEntry) (indices : List IndexFile)
    (m : List (String × String)) (devel : Bool) (rel : Release)
    (r : ChartVersionInfo) (b : Bool)
    (h : processRelease cfg indices m devel rel = (some r, b)) :
    (r.status = statusUptodate ↔ r.installedVersion = r.latestVersion) ∧
    (r.status = statusOutdated ↔ r.installedVersion ≠ r.latestVersion) := by
  obtain ⟨latest, rn₂, hr⟩ :=
    resolveLoop_shape cfg devel rel.name rel.nspace rel.chart.metadata.name
      rel.chart.metadata.version indices (initialRepoName m rel) false r b h
  subst hr
  by_cases hv : rel.chart.metadata.version = latest <;>
    simp [mkRecord, statusUptodate, statusOutdated, hv]

/-- Witness for C1 at a concrete run: installed `1.0.0` vs latest
`2.0.0` is `OUTDATED`. -/
theorem c1_witness :
    (((⟨"r1", "ns", "c1", "1.0.0", "2.0.0", "unknown", "OUTDATED"⟩ :
        ChartVersionInfo).status = statusUptodate) ↔
      ((⟨"r1", "ns", "c1", "1.0.0", "2.0.0", "unknown", "OUTDATED"⟩ :
        ChartVersionInfo).installedVersion =
       (⟨"r1", "ns", "c1", "1.0.0", "2.0.0", "unknown", "OUTDATED"⟩ :
        ChartVersionInfo).latestVersion)) ∧
    (((⟨"r1", "ns", "c1", "1.0.0", "2.0.0", "unknown", "OUTDATED"⟩ :
        ChartVersionInfo).status = statusOutdated) ↔
      ((⟨"r1", "ns", "c1", "1.0.0", "2.0.0", "unknown", "OUTDATED"⟩ :
        ChartVersionInfo).installedVersion ≠
       (⟨"r1", "ns", "c1", "1.0.0", "2.0.0", "unknown", "OUTDATED"⟩ :
        ChartVersionInfo).latestVersion)) :=
  c1_status_exact_equality [] [⟨"", [("c1", [⟨"2.0.0", "v1", []⟩])]⟩] [] false
    ⟨"r1", "ns", ⟨⟨"c1", "1.0.0", none⟩⟩⟩
    ⟨"r1", "ns", "c1", "1.0.0", "2.0.0", "unknown", "OUTDATED"⟩ true rfl

theorem reconcile_filterMap (cfg : List RepoEntry) (indices : List IndexFile)
    (m : List (String × String)) (devel : Bool) :
    ∀ rels : List Release,
      reconcile cfg indices m devel rels =
        (rels.filterMap (fun rel => (processRelease cfg indices m devel rel).1),
         rels.filterMap (fun rel =>
           if (processRelease cfg indices m devel rel).2 then none
           else some (warnFor rel.name))) := by
  intro rels
  induction rels with
  | nil => simp [reconcile]
  | cons rel rest ih =>
    simp only [reconcile, List.filterMap_cons, ih]
    cases h1 : (processRelease cfg indices m devel rel).1 <;>
      cases h2 : (processRelease cfg indices m devel rel).2 <;>
        simp [h1, h2]

/-- C7: the reconciliation loop contributes at most one result record
per release, in exactly the supplied release order, with no filtering
or sorting of its own — the record list and warning list are the
`filterMap` images of the release list. -/
theorem c7_order_preserved (cfg : List RepoEntry) (indices : List IndexFile)
    (m : List (String × String)) (devel : Bool) (rels : List Release) :
    reconcile cfg indices m devel rels =
      (rels.filterMap (fun rel => (processRelease cfg indices m devel rel).1),
       rels.filterMap (fun rel =>
         if (processRelease cfg indices m devel rel).2 then none
         else some (warnFor rel.name))) ∧
    (reconcile cfg indices m devel rels).1.length ≤ rels.length ∧
    (reconcile cfg indices m devel rels).2.length ≤ rels.length := by
  refine ⟨reconcile_filterMap cfg indices m devel rels, ?_, ?_⟩
  · rw [reconcile_filterMap cfg indices m devel rels]
    exact List.length_filterMap_le _ _
  · rw [reconcile_filterMap cfg indices m devel rels]
    exact List.length_filterMap_le _ _

theorem attributeRepo_of_ne (cfg : List RepoEntry) (idx : IndexFile) (c : String)
    (es : List ChartEntry) (rn : String) (h : rn ≠ "") :
    attributeRepo cfg idx c es rn = rn := by
  unfold attributeRepo
  have hb : (rn != "") = true := by simpa using h
  simp only [hb, if_true]

theorem resolveLoop_repoName (cfg : List RepoEntry) (devel : Bool) (a ns c v : String) :
    ∀ (indices : List IndexFile) (rn : String) (f : Bool) (r : ChartVersionInfo) (b : Bool),
      rn ≠ "" →
      resolveLoop cfg devel a ns c v indices rn f = (some r, b) →
      r.repoName = rn := by
  intro indices
  induction indices with
  | nil =>
    intro rn f r b _ h
    simp [resolveLoop] at h
  | cons idx rest ih =>
    intro rn f r b hrn h
    cases he : entriesFor idx c with
    | none =>
      simp only [resolveLoop, he] at h
      exact ih _ _ _ _ hrn h
    | some es =>
      simp only [resolveLoop, he] at h
      by_cases hemp : es.isEmpty = true
      · simp only [hemp, if_true] at h
        exact ih _ _ _ _ hrn h
      · rw [Bool.not_eq_true] at hemp
        simp only [hemp] at h
        by_cases hl : (findLatest cfg devel rn es).1 = ""
        · simp only [hl, if_pos rfl] at h
          rw [findLatest_snd_of_ne cfg devel rn es hrn] at h
          exact ih _ _ _ _ hrn h
        · simp only [if_neg hl] at h
          injection h with h₁ h₂
          injection h₁ with h₁
          rw [← h₁]
          show attributeRepo cfg idx c es (findLatest cfg devel rn es).2 = rn
          rw [findLatest_snd_of_ne cfg devel rn es hrn]
          exact attributeRepo_of_ne cfg idx c es rn hrn

/-- C6: the attribution chain short-circuits at the annotation step —
when the release carries a non-empty `artifacthub.io/repository`
annotation, the repository name of the produced record is the
annotation value verbatim, whatever the chart→repository map `m`
contains for the chart name. -/
theorem c6_annotation_wins (cfg : List RepoEntry) (indices : List IndexFile)
    (m : List (String × String)) (devel : Bool) (rel : Release)
    (anns : List (String × String)) (v : String) (r : ChartVersionInfo) (b : Bool)
    (hann : rel.chart.metadata.annotations = some anns)
    (hv : mapLookup anns "artifacthub.io/repository" = some v)
    (hne : v ≠ "")
    (h : processRelease cfg indices m devel rel = (some r, b)) :
    r.repoName = v := by
  have hinit : initialRepoName m rel = v := by
    unfold initialRepoName annotRepoName
    rw [hann]
    simp [hv, hne]
  unfold processRelease at h
  rw [hinit] at h
  exact resolveLoop_repoName cfg devel _ _ _ _ indices v false r b hne h

/-- Witness for C6: the map says `maprepo` for chart `c1`, the
annotation says `annrepo`; the record resolves to `annrepo`. -/
theorem c6_witness :
    (⟨"r1", "ns", "c1", "1.0.0", "2.0.0", "annrepo", "OUTDATED"⟩ :
      ChartVersionInfo).repoName = "annrepo" :=
  c6_annotation_wins [] [⟨"", [("c1", [⟨"2.0.0", "v1", []⟩])]⟩] [("c1", "maprepo")]
    false ⟨"r1", "ns", ⟨⟨"c1", "1.0.0", some [("artifacthub.io/repository", "annrepo")]⟩⟩⟩
    [("artifacthub.io/repository", "annrepo")] "annrepo"
    ⟨"r1", "ns", "c1", "1.0.0", "2.0.0", "annrepo", "OUTDATED"⟩ true
    rfl rfl (by decide) rfl

theorem findLatest_allpre (cfg : List RepoEntry) :
    ∀ (rn : String) (es : List ChartEntry),
      es.all (fun e => e.apiVersion == "prerelease") = true →
      findLatest cfg false rn es = ("", rn) := by
  intro rn es
  induction es generalizing rn with
  | nil =>
    intro _
    simp [findLatest]
  | cons e rest ih =>
    intro hall
    simp only [List.all_cons, Bool.and_eq_true] at hall
    have hacc : acceptedEntry false e = false := by
      simp [acceptedEntry, hall.1]
    simp [findLatest, hacc, ih rn hall.2]

theorem resolveLoop_allpre (cfg : List RepoEntry) (a ns c v : String) :
    ∀ (indices : List IndexFile) (rn : String) (f : Bool),
      (∀ idx ∈ indices, allPreB c idx = true) →
      resolveLoop cfg false a ns c v indices rn f =
        (none, f || indices.any (hasEntriesB c)) := by
  intro indices
  induction indices with
  | nil =>
    intro rn f _
    simp [resolveLoop]
  | cons idx rest ih =>
    intro rn f hall
    have hidx := hall idx (List.mem_cons_self _ _)
    have hrest : ∀ i ∈ rest, allPreB c i = true :=
      fun i hi => hall i (List.mem_cons_of_mem _ hi)
    cases he : entriesFor idx c with
    | none =>
      simp only [resolveLoop, he]
      rw [ih rn f hrest]
      simp [List.any_cons, hasEntriesB, he]
    | some es =>
      have hpre : es.all (fun e => e.apiVersion == "prerelease") = true := by
        unfold allPreB at hidx
        rw [he] at hidx
        exact hidx
      simp only [resolveLoop, he]
      by_cases hemp : es.isEmpty = true
      · simp only [hemp, if_true]
        rw [ih rn f hrest]
        simp [List.any_cons, hasEntriesB, he, hemp]
      · rw [Bool.not_eq_true] at hemp
        simp only [hemp]
        rw [findLatest_allpre cfg rn es hpre]
        simp only [if_pos rfl]
        rw [ih rn true hrest]
        simp [List.any_cons, hasEntriesB, he, hemp]

/-- C4 (amended): when every index either lacks the chart name of the release
name or has all of its entries flagged prerelease (prerelease flag
off), and at least one index does carry a non-empty entry list for the
chart, the release yields zero result records and zero warnings —
each such repository is treated as non-matching for record
production, but the found flag is already set, so no warning is
emitted (unlike a release whose chart name appears in no index). -/
theorem c4_filtered_release_silent (cfg : List RepoEntry) (indices : List IndexFile)
    (m : List (String × String)) (rel : Release)
    (hall : ∀ idx ∈ indices, allPreB rel.chart.metadata.name idx = true)
    (hsome : indices.any (hasEntriesB rel.chart.metadata.name) = true) :
    reconcile cfg indices m false [rel] = ([], []) := by
  unfold reconcile processRelease
  rw [resolveLoop_allpre cfg rel.name rel.nspace rel.chart.metadata.name
    rel.chart.metadata.version indices (initialRepoName m rel) false hall]
  simp [hsome, reconcile]

/-- C4 counterexample: one index carries chart `c1` with a single
prerelease-flagged entry and the flag is off; the run produces zero
records and zero warnings — not the one warning the claim requires. -/
theorem c4_counterexample :
    reconcile [] [⟨"", [("c1", [⟨"2.0.0", "prerelease", []⟩])]⟩] [] false
        [⟨"r1", "default", ⟨⟨"c1", "1.0.0", none⟩⟩⟩] = ([], []) ∧
    ([] : List String) ≠ [warnFor "r1"] :=
  ⟨rfl, by decide⟩

/-- Witness for the amended C4 theorem at the concrete input above. -/
theorem c4_witness :
    reconcile [] [⟨"", [("c1", [⟨"2.0.0", "prerelease", []⟩])]⟩] [] false
        [⟨"r1", "default", ⟨⟨"c1", "1.0.0", none⟩⟩⟩] = ([], []) :=
  c4_filtered_release_silent [] [⟨"", [("c1", [⟨"2.0.0", "prerelease", []⟩])]⟩] []
    ⟨"r1", "default", ⟨⟨"c1", "1.0.0", none⟩⟩⟩ (by decide) (by decide)

theorem resolveLoop_skip (cfg : List RepoEntry) (devel : Bool) (a ns c v : String)
    (idx : IndexFile) (rest : List IndexFile) (rn : String) (f : Bool)
    (hy : yieldsB devel c idx = false) :
    resolveLoop cfg devel a ns c v (idx :: rest) rn f =
      resolveLoop cfg devel a ns c v rest
        (findLatest cfg devel rn ((entriesFor idx c).getD [])).2
        (f || hasEntriesB c idx) := by
  cases he : entriesFor idx c with
  | none => simp [resolveLoop, he, findLatest, hasEntriesB]
  | some es =>
    by_cases hemp : es.isEmpty = true
    · have hnil : es = [] := List.isEmpty_iff.mp hemp
      subst hnil
      simp [resolveLoop, he, hasEntriesB, findLatest]
    · have hl : (findLatest cfg devel rn es).1 = "" := by
        rw [findLatest_fst]
        unfold yieldsB at hy
        rw [he] at hy
        rw [Bool.not_eq_true] at hemp
        simp [hemp] at hy
        exact hy
      rw [Bool.not_eq_true] at hemp
      simp [resolveLoop, he, hemp, hl, hasEntriesB]

/-- C5: the repository loop stops at the first index (in loaded,
i.e. configured, order) that yields an acceptable entry for the chart
— indices after it are never examined (the result with any `post`
suffix equals the result with `post` dropped) — and the produced
record carries as latest version the version of the first acceptable
entry from the entry list of that index; candidates from later repositories are never
merged or compared. -/
theorem c5_first_repository_wins (cfg : List RepoEntry) (devel : Bool)
    (a ns c v : String) (pre post : List IndexFile) (idx : IndexFile)
    (rn : String) (f : Bool)
    (hpre : ∀ i ∈ pre, yieldsB devel c i = false)
    (hy : yieldsB devel c idx = true) :
    resolveLoop cfg devel a ns c v (pre ++ idx :: post) rn f =
      resolveLoop cfg devel a ns c v (pre ++ [idx]) rn f ∧
    ((resolveLoop cfg devel a ns c v (pre ++ idx :: post) rn f).1.map
      ChartVersionInfo.latestVersion) =
      some (latestOfEntries devel ((entriesFor idx c).getD [])) := by
  induction pre generalizing rn f with
  | nil =>
    obtain ⟨es, he, hne, hlat⟩ : ∃ es, entriesFor idx c = some es ∧
        es.isEmpty = false ∧ latestOfEntries devel es ≠ "" := by
      unfold yieldsB at hy
      cases he : entriesFor idx c with
      | none =>
        rw [he] at hy
        cases hy
      | some es =>
        rw [he] at hy
        simp only [Bool.and_eq_true, Bool.not_eq_true', beq_eq_false_iff_ne] at hy
        exact ⟨es, rfl, hy.1, by simpa using hy.2⟩
    have hl1 : (findLatest cfg devel rn es).1 = latestOfEntries devel es :=
      findLatest_fst cfg devel rn es
    have hlne : ¬((findLatest cfg devel rn es).1 = "") := by
      rw [hl1]
      exact hlat
    constructor
    · simp [resolveLoop, he, hne, if_neg hlne]
    · simp only [List.nil_append, resolveLoop, he, hne, if_neg hlne]
      simp [mkRecord, hl1]
  | cons i pre ih =>
    have hi := hpre i (List.mem_cons_self _ _)
    have hp : ∀ i₁ ∈ pre, yieldsB devel c i₁ = false :=
      fun i₁ hi₁ => hpre i₁ (List.mem_cons_of_mem _ hi₁)
    simp only [List.cons_append]
    rw [resolveLoop_skip cfg devel a ns c v i _ rn f hi,
      resolveLoop_skip cfg devel a ns c v i _ rn f hi]
    exact ih _ _ hp

/-- Witness for C5 at a concrete input: the chart-free index in `pre`
is skipped, the middle index wins with latest `2.0.0`, and the index
after it (offering `9.9.9`) is never consulted. -/
theorem c5_witness :
    resolveLoop [] false "r1" "ns" "c1" "1.0.0"
        ([⟨"", [("other", [⟨"1.0", "v1", []⟩])]⟩] ++
          (⟨"", [("c1", [⟨"2.0.0", "v1", []⟩])]⟩ : IndexFile) ::
            [⟨"", [("c1", [⟨"9.9.9", "v1", []⟩])]⟩]) "" false =
      resolveLoop [] false "r1" "ns" "c1" "1.0.0"
        ([⟨"", [("other", [⟨"1.0", "v1", []⟩])]⟩] ++
          [⟨"", [("c1", [⟨"2.0.0", "v1", []⟩])]⟩]) "" false ∧
    ((resolveLoop [] false "r1" "ns" "c1" "1.0.0"
        ([⟨"", [("other", [⟨"1.0", "v1", []⟩])]⟩] ++
          (⟨"", [("c1", [⟨"2.0.0", "v1", []⟩])]⟩ : IndexFile) ::
            [⟨"", [("c1", [⟨"9.9.9", "v1", []⟩])]⟩]) "" false).1.map
      ChartVersionInfo.latestVersion) =
      some (latestOfEntries false
        ((entriesFor ⟨"", [("c1", [⟨"2.0.0", "v1", []⟩])]⟩ "c1").getD [])) :=
  c5_first_repository_wins [] false "r1" "ns" "c1" "1.0.0"
    [⟨"", [("other", [⟨"1.0", "v1", []⟩])]⟩] [⟨"", [("c1", [⟨"9.9.9", "v1", []⟩])]⟩]
    ⟨"", [("c1", [⟨"2.0.0", "v1", []⟩])]⟩ "" false (by decide) (by decide)

theorem fetchIndicesLoop_none (loadIdx : String → Option IndexFile) :
    ∀ repos : List RepoEntry,
      (∀ r ∈ repos, loadIdx (r.name ++ "-index.yaml") = none) →
      fetchIndicesLoop loadIdx repos = [] := by
  intro repos
  induction repos with
  | nil =>
    intro _
    rfl
  | cons r rest ih =>
    intro h
    have hr := h r (List.mem_cons_self _ _)
    simp [fetchIndicesLoop, hr, ih (fun r₁ hr₁ => h r₁ (List.mem_cons_of_mem _ hr₁))]

/-- C8 (amended): when the cached index of every configured repository
fails to load while the release list is non-empty, `run` returns at
the empty-repository early exit, producing zero result records and
zero warnings — not one warning per release. -/
theorem c8_no_indices_early_return (rels : List Release) (cfgRepos : List RepoEntry)
    (loadIdx : String → Option IndexFile) (devel : Bool)
    (hne : rels ≠ [])
    (hfail : ∀ r ∈ cfgRepos, loadIdx (r.name ++ "-index.yaml") = none) :
    run (.ok rels) (.ok cfgRepos) loadIdx devel = .ok .earlyNoRepos := by
  have hloop := fetchIndicesLoop_none loadIdx cfgRepos hfail
  have hlen : rels.length ≠ 0 := by simpa using hne
  simp [run, fetchIndices, hloop, hlen]

/-- C8 counterexample: one release, one configured repository whose
index fails to load — the run short-circuits at the no-repositories
early exit with zero warnings, while the claim requires one warning
for the release. -/
theorem c8_counterexample :
    run (.ok [⟨"r1", "default", ⟨⟨"c1", "1.0.0", none⟩⟩⟩])
        (.ok [⟨"alpha", "https://a.example"⟩]) (fun _ => none) false =
      .ok .earlyNoRepos ∧
    outWarnings .earlyNoRepos = [] ∧
    ([] : List String) ≠ [warnFor "r1"] :=
  ⟨rfl, rfl, by decide⟩

/-- Witness for the amended C8 theorem at the concrete input above. -/
theorem c8_witness :
    run (.ok [⟨"r1", "default", ⟨⟨"c1", "1.0.0", none⟩⟩⟩])
        (.ok [⟨"alpha", "https://a.example"⟩]) (fun _ => none) false =
      .ok .earlyNoRepos :=
  c8_no_indices_early_return [⟨"r1", "default", ⟨⟨"c1", "1.0.0", none⟩⟩⟩]
    [⟨"alpha", "https://a.example"⟩] (fun _ => none) false (by decide)
    (fun _ _ => rfl)

/-- C9: fatal versus recoverable errors — a failed release-list fetch
aborts the run with that error; a failed repository-file load aborts
the run with a wrapped error; with both inputs available the run never
errors, whatever single index loads fail; and a repository whose index
fails to load is simply dropped from the loaded-index sequence. -/
theorem c9_error_policy :
    (∀ (e : String) (cfg : Except String (List RepoEntry))
        (li : String → Option IndexFile) (d : Bool),
      run (.error e) cfg li d = .error e) ∧
    (∀ (rels : List Release) (e : String) (li : String → Option IndexFile) (d : Bool),
      run (.ok rels) (.error e) li d =
        .error ("failed to load repository file: " ++ e)) ∧
    (∀ (rels : List Release) (cfgRepos : List RepoEntry)
        (li : String → Option IndexFile) (d : Bool),
      ∃ o, run (.ok rels) (.ok cfgRepos) li d = .ok o) ∧
    (∀ (li : String → Option IndexFile) (r : RepoEntry) (rest : List RepoEntry),
      li (r.name ++ "-index.yaml") = none →
      fetchIndicesLoop li (r :: rest) = fetchIndicesLoop li rest) := by
  refine ⟨fun e cfg li d => rfl, fun rels e li d => rfl, ?_, ?_⟩
  · intro rels cfgRepos li d
    unfold run fetchIndices
    by_cases h1 : rels.length = 0
    · exact ⟨.earlyNoReleases, by simp [h1]⟩
    · by_cases h2 : (fetchIndicesLoop li cfgRepos).length = 0
      · exact ⟨.earlyNoRepos, by simp [h1, h2]⟩
      · exact ⟨.report
          (reconcile cfgRepos (fetchIndicesLoop li cfgRepos)
            (buildChartRepoMap cfgRepos (fetchIndicesLoop li cfgRepos)) d rels).1
          (reconcile cfgRepos (fetchIndicesLoop li cfgRepos)
            (buildChartRepoMap cfgRepos (fetchIndicesLoop li cfgRepos)) d rels).2,
          by simp [h1, h2]⟩
  · intro li r rest h
    simp [fetchIndicesLoop, h]

/-- Witness for C9: a failed release fetch surfaces its error, and a
repository with an unloadable index is dropped. -/
theorem c9_witness :
    run (.error "boom") (.ok []) (fun _ => none) false = .error "boom" ∧
    fetchIndicesLoop (fun _ => none) [⟨"alpha", "u"⟩] =
      fetchIndicesLoop (fun _ => none) [] :=
  ⟨c9_error_policy.1 "boom" (.ok []) (fun _ => none) false,
   c9_error_policy.2.2.2 (fun _ => none) ⟨"alpha", "u"⟩ [] rfl⟩

/-- C10: when the accumulated repository name is empty (annotation,
map and in-loop URL steps failed), no configured repository name
equals the chart name, the index-identifier convention does not apply,
and no configured repository URL is contained in the first URL of the
first entry, attribution takes the third slash-separated
component (the host) and, when it has at least two dot-separated
labels with a non-empty second label, returns that second label —
before the prefix heuristic is tried. -/
theorem c10_host_label_extraction (cfg : List RepoEntry) (idx : IndexFile)
    (c : String) (e₀ : ChartEntry) (rest : List ChartEntry) (u : String)
    (urest : List String)
    (hurl : e₀.urls = u :: urest)
    (hname : cfg.find? (fun r => r.name == c) = none)
    (hapi : idx.apiVersion = "" ∨
      strEnds (filepathBase idx.apiVersion) "-index.yaml" = false)
    (hmatch : cfg.find? (fun r => strContains u r.url) = none)
    (hparts : (strSplit u "/").length ≥ 3)
    (hdlen : (strSplit ((strSplit u "/").getD 2 "") ".").length ≥ 2)
    (hlab : (strSplit ((strSplit u "/").getD 2 "") ".").getD 1 "" ≠ "") :
    attributeRepo cfg idx c (e₀ :: rest) "" =
      (strSplit ((strSplit u "/").getD 2 "") ".").getD 1 "" := by
  simp only [List.getD_eq_getElem?_getD] at hdlen hlab ⊢
  unfold attributeRepo urlMatchRepo
  simp only [hname, hmatch, hurl]
  rcases hapi with ha | ha <;> simp [ha, hname, hmatch, hparts, hdlen, hlab]

/-- Witness for C10: with one configured repository `stable` whose URL
does not occur in the chart URL, attribution of
`https://charts.bitnami.com/bitnami` yields `bitnami` — a name that is
not the name of any configured repository and not `unknown`. -/
theorem c10_witness :
    attributeRepo [⟨"stable", "https://example.com/zz"⟩] ⟨"", []⟩ "mychart"
        [⟨"1.0", "v1", ["https://charts.bitnami.com/bitnami"]⟩] "" = "bitnami" ∧
    ([⟨"stable", "https://example.com/zz"⟩] : List RepoEntry).all
      (fun r => r.name != "bitnami") = true ∧
    "bitnami" ≠ "unknown" := by
  refine ⟨?_, by decide, by decide⟩
  rw [c10_host_label_extraction [⟨"stable", "https://example.com/zz"⟩] ⟨"", []⟩
    "mychart" ⟨"1.0", "v1", ["https://charts.bitnami.com/bitnami"]⟩ []
    "https://charts.bitnami.com/bitnami" [] rfl (by decide) (Or.inl rfl)
    (by decide) (by decide) (by decide) (by decide)]
  rfl

end HelmWhatup
